import Mathlib

/-!
Verification of the Darija lesson-platform core: a shallow embedding of the
fill-in-the-blanks tokenizer, the activity validator, the lesson authoring
reducer and the learner quiz state machine, translated from
`src/component/LearnerLessonView.tsx` and the teacher-dashboard source file.

Timestamps (`Date.now()`, `new Date().toISOString()`) are modelled as naturals
passed in explicitly (ISO-8601 strings produced from a monotone clock compare
like the instants they encode).  JavaScript objects used as maps from blank
index to word are modelled as association lists with `lookup` semantics.
-/

namespace Darija

/-- Whitespace recognised by JavaScript `String.prototype.trim` (the common
code points; space, tab, line feed, carriage return, vertical tab, form feed,
no-break space). -/
def jsWhitespace (c : Char) : Bool :=
  c = ' ' || c = '\t' || c = '\n' || c = '\x0d' || c = '\x0b' || c = '\x0c' ||
  c = Char.ofNat 0xa0

/-- JavaScript `String.prototype.trim` on a list of characters: drop
whitespace from both ends. -/
def jsTrim (l : List Char) : List Char :=
  ((l.dropWhile jsWhitespace).reverse.dropWhile jsWhitespace).reverse

/-- String-level `trim`. -/
def jsTrimStr (s : String) : String :=
  ⟨jsTrim s.data⟩

/-- Line terminators that the `.` of a JavaScript regular expression does not
match (LF, CR, LINE SEPARATOR, PARAGRAPH SEPARATOR). -/
def jsLineTerminator (c : Char) : Bool :=
  c = '\n' || c = '\x0d' || c = Char.ofNat 0x2028 || c = Char.ofNat 0x2029

/-- One token of the parsed sentence template: the source pushes either
`\x7b text: part \x7d` or `\x7b blank: blankIndex, correct: word \x7d`. -/
inductive Token where
  | text (s : String)
  | blank (index : Nat) (correct : String)
deriving DecidableEq, Repr

/-- The lazy group `\x7b.*?\x7d` of the splitting regular expression in
`parseFillInBlanks`, matched at a position just after an opening brace: it
succeeds at the first closing brace, provided no line terminator (which `.`
cannot match) intervenes.  On success it returns the group content and the
remaining input after the closing brace. -/
def findBlankEnd : List Char → Option (List Char × List Char)
  | [] => none
  | c :: cs =>
    if c = '\x7d' then some ([], cs)
    else if jsLineTerminator c then none
    else (findBlankEnd cs).map (fun p => (c :: p.1, p.2))

theorem findBlankEnd_cons (c : Char) (cs : List Char) :
    findBlankEnd (c :: cs) =
      (if c = '\x7d' then some ([], cs)
       else if jsLineTerminator c then none
       else (findBlankEnd cs).map (fun p => (c :: p.1, p.2))) := rfl

theorem findBlankEnd_eq (cs : List Char) :
    ∀ content rest, findBlankEnd cs = some (content, rest) →
      cs = content ++ '\x7d' :: rest := by
  induction cs with
  | nil => intro content rest h; simp [findBlankEnd] at h
  | cons c cs ih =>
    intro content rest h
    rw [findBlankEnd_cons] at h
    by_cases hc : c = '\x7d'
    · rw [if_pos hc] at h
      simp only [Option.some.injEq, Prod.mk.injEq] at h
      rw [← h.1, ← h.2, hc]
      rfl
    · rw [if_neg hc] at h
      by_cases hl : jsLineTerminator c = true
      · rw [if_pos hl] at h
        exact absurd h (by simp)
      · rw [if_neg hl] at h
        cases hfb : findBlankEnd cs with
        | none => rw [hfb] at h; simp at h
        | some p =>
          obtain ⟨a, b⟩ := p
          rw [hfb] at h
          simp only [Option.map_some', Option.some.injEq, Prod.mk.injEq] at h
          rw [← h.1, ← h.2]
          have := ih a b hfb
          rw [this]
          simp

theorem findBlankEnd_length (cs content rest : List Char)
    (h : findBlankEnd cs = some (content, rest)) :
    rest.length < cs.length := by
  have := findBlankEnd_eq cs content rest h
  subst this
  simp
  omega

/-- The splitter `template.split(regex).filter(p => p.length > 0)`:
`String.prototype.split` with a capturing group keeps the matched separators
in the output, and empty fragments are filtered away.  `acc` holds the
current literal fragment, reversed.  The recursion is driven by a fuel
counter so that the function is structurally recursive (hence computable by
the kernel); `splitParts` supplies fuel equal to the input length, which the
lemma `splitPartsAux_flatten` and its relatives show is always sufficient. -/
def splitPartsAux : Nat → List Char → List Char → List (List Char)
  | _, acc, [] => if acc.isEmpty then [] else [acc.reverse]
  | 0, acc, _ => if acc.isEmpty then [] else [acc.reverse]
  | fuel + 1, acc, c :: cs =>
    if c = '\x7b' then
      match findBlankEnd cs with
      | some (content, rest) =>
        (if acc.isEmpty then [] else [acc.reverse]) ++
          ('\x7b' :: content ++ ['\x7d']) :: splitPartsAux fuel [] rest
      | none => splitPartsAux fuel (c :: acc) cs
    else splitPartsAux fuel (c :: acc) cs

/-- All nonempty parts of the template, literal fragments and brace groups
interleaved in source order. -/
def splitParts (l : List Char) : List (List Char) :=
  splitPartsAux l.length [] l

/-- Classification used by the source: a part is a blank exactly when
`part.startsWith('\x7b') && part.endsWith('\x7d')`. -/
def isBlankPart (p : List Char) : Bool :=
  p.head? = some '\x7b' && p.getLast? = some '\x7d'

/-- JavaScript `part.substring(1, part.length - 1)`: the characters strictly inside the
braces. -/
def interior (p : List Char) : List Char :=
  (p.drop 1).dropLast

/-- The `forEach` loop of `parseFillInBlanks`, building the token list while
threading the running blank index. -/
def buildTokens (i : Nat) : List (List Char) → List Token
  | [] => []
  | p :: ps =>
    if isBlankPart p then
      Token.blank i ⟨jsTrim (interior p)⟩ :: buildTokens (i + 1) ps
    else
      Token.text ⟨p⟩ :: buildTokens i ps

/-- The `correctWords` array pushed by the same loop. -/
def buildCW : List (List Char) → List String
  | [] => []
  | p :: ps =>
    if isBlankPart p then ⟨jsTrim (interior p)⟩ :: buildCW ps else buildCW ps

/-- The tokenizer `parseFillInBlanks(template)`: returns the pair
`(sentenceTemplate, correctWords)`.  The guard `if (!template)` returns the
empty result for the empty (falsy) string. -/
def parseFillInBlanks (template : String) : List Token × List String :=
  if template = "" then ([], [])
  else (buildTokens 0 (splitParts template.data), buildCW (splitParts template.data))

/-- The correct words carried by the blank tokens of a template, in order. -/
def correctWordsOf (ts : List Token) : List String :=
  ts.filterMap fun t =>
    match t with
    | Token.blank _ w => some w
    | Token.text _ => none

/-- The indices carried by the blank tokens of a template, in order. -/
def blankIndicesOf (ts : List Token) : List Nat :=
  ts.filterMap fun t =>
    match t with
    | Token.blank i _ => some i
    | Token.text _ => none

/-- The literal reconstruction of a token list: text tokens verbatim and
`'\x7b' ++ correct ++ '\x7d'` for blanks. -/
def reconstructTokens : List Token → List Char
  | [] => []
  | Token.text s :: ts => s.data ++ reconstructTokens ts
  | Token.blank _ w :: ts => '\x7b' :: (w.data ++ '\x7d' :: reconstructTokens ts)

/-- True when no closing brace appears anywhere after an opening brace, i.e.
every opening brace of the input is unterminated. -/
def noCloseAfterOpen : List Char → Bool
  | [] => true
  | c :: cs => if c = '\x7b' then !cs.contains '\x7d' else noCloseAfterOpen cs

/-! ## Activity data model (authoring side, `initialActivityData` shape) -/

/-- A bilingual phrase with optional audio (`initialMediaElement` shape).
The simulated audio attachment stores a `\x7bname, url\x7d` descriptor in
`audioFile`. -/
structure MediaElement where
  id : Nat := 0
  text : String := ""
  translation : String := ""
  audioFile : Option (String × String) := none
  audioUrl : String := ""
deriving DecidableEq

/-- An answer option: a `MediaElement` together with an `isCorrect` flag. -/
structure OptionElem extends MediaElement where
  isCorrect : Bool := false
deriving DecidableEq

/-- A matching pair: a `MediaElement` together with an image/emoji. -/
structure PairElem extends MediaElement where
  image : String := ""
deriving DecidableEq

/-- The five activity type strings accepted by the builder's type selector
and switched on by the validator and the learner view. -/
inductive ActivityType where
  | multipleChoice
  | fillInBlanks
  | ordering
  | dialogue
  | matchImage
deriving DecidableEq

/-- The activity document: a superset schema carrying all of
`options`/`items`/`pairs`/`wordBlocks` regardless of `type`.  The learner
demo data additionally carries a `wordPool` field on its fill-in-blanks
activity; authoring-produced documents never set it, so both word lists are
optional here (`none` models an absent field). -/
structure Activity where
  id : Nat := 0
  type : ActivityType := .multipleChoice
  title : String := ""
  description : String := ""
  question : MediaElement := {}
  options : List OptionElem := []
  items : List MediaElement := []
  pairs : List PairElem := []
  wordBlocks : Option (List String) := none
  wordPool : Option (List String) := none
  difficulty : String := "beginner"
  timeEstimate : Nat := 5
deriving DecidableEq

/-- The default draft `initialActivityData`: a multiple-choice draft (one correct and
two incorrect empty options, one empty item, one empty pair, empty
`wordBlocks`).  The creation-time `Date.now()` identifier is passed in. -/
def initialActivityData (t0 : Nat) : Activity where
  id := t0
  type := .multipleChoice
  title := ""
  description := ""
  question := { id := t0 }
  options := [{ id := t0, isCorrect := true },
              { id := t0, isCorrect := false },
              { id := t0, isCorrect := false }]
  items := [{ id := t0 }]
  pairs := [{ id := t0, image := "" }]
  wordBlocks := some []
  wordPool := none
  difficulty := "beginner"
  timeEstimate := 5

/-! ## Activity validator -/

def titleRequiredError : String := "Activity title is required"

def questionRequiredError : String := "Question text is required"

def optionsCountError : String := "At least 2 options are required"

def correctOptionError : String := "One option must be marked as correct"

def itemsCountError : String := "At least 2 items are required"

def pairsCountError : String := "At least 2 pairs are required"

def blanksRequiredError : String :=
  "Sentence must contain blanks marked with \x7bword\x7d"

/-- The validator `validateActivity(activity)`: collects every error, in source order.
`!x?.trim()` is truthy exactly when the trimmed string is empty, and
`question.text.includes("\x7b")` is a single-character substring test,
modelled as membership of the brace among the string's characters. -/
def validateActivity (a : Activity) : List String :=
  (if jsTrimStr a.title = "" then [titleRequiredError] else []) ++
  (if jsTrimStr a.question.text = "" then [questionRequiredError] else []) ++
  (match a.type with
   | .multipleChoice =>
     (if (a.options.filter fun o => jsTrimStr o.text ≠ "").length < 2 then
        [optionsCountError] else []) ++
     (if a.options.any fun o => o.isCorrect then [] else [correctOptionError])
   | .ordering | .dialogue =>
     if a.items.length < 2 then [itemsCountError] else []
   | .matchImage =>
     if a.pairs.length < 2 then [pairsCountError] else []
   | .fillInBlanks =>
     if a.question.text.data.contains '\x7b' then [] else [blanksRequiredError])

/-! ## Learner quiz state machine (`LearnerLessonView`) -/

/-- The learner-side per-step state: the `useState` hooks of
`LearnerLessonView`.  `blanksState` is the blank-index → word object,
modelled as an association list (keys are distinct; insertion only happens
on an absent key).  `selectedAnswer` starts as `null`. -/
structure QuizState where
  step : Nat := 0
  isAnswered : Bool := false
  isCorrect : Bool := false
  selectedAnswer : Option String := none
  matchingState : List (Nat × String) := []
  blanksState : List (Nat × String) := []
  availableWords : List String := []
deriving DecidableEq

/-- The initial hook values of `LearnerLessonView`. -/
def initialQuizState : QuizState := {}

/-- Lookup `blanksState[i]`: association-list lookup, `none` for `undefined`. -/
def lookupBlank (bs : List (Nat × String)) (i : Nat) : Option String :=
  (bs.find? fun e => e.1 = i).map (·.2)

/-- The derived `blankParts`: the blank tokens of the current sentence template, as
`(index, correct)` pairs, in template order
(`sentenceTemplate.filter(p => p.blank !== undefined)`). -/
def blankTokens (ts : List Token) : List (Nat × String) :=
  ts.filterMap fun t =>
    match t with
    | Token.blank i c => some (i, c)
    | Token.text _ => none

/-- The handler `handleContinue`: advances the step and clears the per-step answer state
whenever `step < totalSteps`; otherwise (the terminal completion state) it
leaves the state unchanged.  Note the source guards only on the step bound,
not on `isAnswered`. -/
def handleContinue (totalSteps : Nat) (s : QuizState) : QuizState :=
  if s.step < totalSteps then
    { s with
      step := s.step + 1
      isAnswered := false
      isCorrect := false
      selectedAnswer := none
      blanksState := []
      matchingState := [] }
  else s

/-- The handler `handleWordBlockTap(word)`: when not yet answered, find the first blank
(in template order) whose slot is unfilled, assign `word` to it, and remove
from `availableWords` every element equal to `word`
(`prev.filter(w => w !== word)`). -/
def handleWordBlockTap (blankParts : List (Nat × String)) (word : String)
    (s : QuizState) : QuizState :=
  if s.isAnswered then s
  else
    match blankParts.find? fun bp => (lookupBlank s.blanksState bp.1).isNone with
    | some bp =>
      { s with
        blanksState := (bp.1, word) :: s.blanksState
        availableWords := s.availableWords.filter fun w => w ≠ word }
    | none => s

/-- The handler `handleAnswerSelect(answerId)`: records the tentative choice unless the
step is already answered. -/
def handleAnswerSelect (answerId : String) (s : QuizState) : QuizState :=
  if s.isAnswered then s else { s with selectedAnswer := some answerId }

/-- The handler `checkAnswer()`: step 0 is trivially correct; otherwise correctness is
decided by the current activity's type.  Multiple choice looks up the first
option whose `text` equals `selectedAnswer`
(`options.find(opt => opt.text === selectedAnswer)?.isCorrect || false`;
`null` compares unequal to every string).  Fill-in-blanks requires every
blank slot to hold exactly its correct word.  Dialogue, match-image and
ordering are always correct. -/
def checkAnswer (step : Nat) (content : Activity)
    (blankParts : List (Nat × String)) (s : QuizState) : QuizState :=
  if step = 0 then { s with isCorrect := true, isAnswered := true }
  else
    let correct :=
      match content.type with
      | .multipleChoice =>
        ((content.options.find? fun o => some o.text = s.selectedAnswer).map
          (·.isCorrect)).getD false
      | .fillInBlanks =>
        blankParts.all fun bp => lookupBlank s.blanksState bp.1 = some bp.2
      | .dialogue | .matchImage | .ordering => true
    { s with isCorrect := correct, isAnswered := true }

/-- The word-block initialization effect: on entering an unanswered
fill-in-blanks step the source runs
`setAvailableWords([...currentContent.wordPool].sort(() => Math.random() - 0.5))`
and `setBlanksState(\x7b\x7d)`.  Spreading an absent `wordPool` throws a
`TypeError`, modelled as `none`.  The random-comparator sort yields an
implementation-dependent permutation of the pool, modelled by the `shuffle`
parameter. -/
def initWordBlocks (shuffle : List String → List String) (a : Activity) :
    Option (List String × List (Nat × String)) :=
  match a.wordPool with
  | none => none
  | some pool => some (shuffle pool, [])

/-! ## Lesson authoring reducer (`TeacherDashboard`) -/

/-- The three authoring views. -/
inductive View where
  | list
  | setup
  | builder
deriving DecidableEq

/-- The lesson document held by the reducer.  ISO-timestamp strings are
modelled as naturals. -/
structure LessonState where
  id : Nat := 0
  title : String := ""
  description : String := ""
  level : String := "beginner"
  objectives : List String := [""]
  introParts : List String := [""]
  activities : List Activity := []
  tags : List String := []
  currentView : View := .list
  isSaved : Bool := false
  isPublished : Bool := false
  createdAt : Nat := 0
  updatedAt : Nat := 0
deriving DecidableEq

/-- The module-level constant `initialLessonState`, built once at load time
`t0` (`Date.now()` for the id, `new Date().toISOString()` for both
timestamps). -/
def initialLessonState (t0 : Nat) : LessonState where
  id := t0
  createdAt := t0
  updatedAt := t0

/-- A `SET_FIELD` payload: the dynamic `[action.field]: action.value` pair,
restricted to the top-level lesson fields the dashboard actually sets. -/
inductive FieldSet where
  | title (v : String)
  | description (v : String)
  | level (v : String)
  | objectives (v : List String)
  | introParts (v : List String)
  | tags (v : List String)
  | isSaved (v : Bool)
  | isPublished (v : Bool)
deriving DecidableEq

def applyFieldSet (s : LessonState) : FieldSet → LessonState
  | .title v => { s with title := v }
  | .description v => { s with description := v }
  | .level v => { s with level := v }
  | .objectives v => { s with objectives := v }
  | .introParts v => { s with introParts := v }
  | .tags v => { s with tags := v }
  | .isSaved v => { s with isSaved := v }
  | .isPublished v => { s with isPublished := v }

/-- The reducer's action space. -/
inductive Action where
  | setField (f : FieldSet)
  | addActivity (a : Activity)
  | updateActivity (id : Nat) (a : Activity)
  | deleteActivity (id : Nat)
  | reorderActivities (acts : List Activity)
  | setView (v : View)
  | resetLesson
  | loadLesson (l : LessonState)
deriving DecidableEq

/-- The reducer `lessonReducer(state, action)`.  `t0` is the module-load instant baked
into `initialLessonState`; `now` is the dispatch-time clock reading used for
`Date.now()` and `new Date().toISOString()` inside the reducer.  Note that
`RESET_LESSON` spreads the module-level `initialLessonState`, so it restores
the stale `updatedAt = t0`, while `SET_FIELD`, the four activity actions and
`LOAD_LESSON` stamp `updatedAt = now`; `SET_VIEW` touches only
`currentView`. -/
def lessonReducer (t0 now : Nat) (s : LessonState) : Action → LessonState
  | .setField f => { applyFieldSet s f with updatedAt := now }
  | .addActivity a =>
    { s with activities := s.activities ++ [{ a with id := now }], updatedAt := now }
  | .updateActivity i a =>
    { s with
      activities := s.activities.map fun act =>
        if act.id = i then { a with id := act.id } else act
      updatedAt := now }
  | .deleteActivity i =>
    { s with activities := s.activities.filter fun act => act.id ≠ i, updatedAt := now }
  | .reorderActivities acts => { s with activities := acts, updatedAt := now }
  | .setView v => { s with currentView := v }
  | .resetLesson => { initialLessonState t0 with id := now, currentView := .setup }
  | .loadLesson l => { l with currentView := .setup, updatedAt := now }

/-- A dispatched sequence: each action is paired with the clock reading at
its dispatch. -/
def applyActions (t0 : Nat) (s : LessonState) : List (Nat × Action) → LessonState
  | [] => s
  | (now, a) :: rest => applyActions t0 (lessonReducer t0 now s a) rest

/-! ## Tokenizer lemmas -/

theorem splitPartsAux_flatten (fuel : Nat) :
    ∀ (acc l : List Char), l.length ≤ fuel →
      (splitPartsAux fuel acc l).flatten = acc.reverse ++ l := by
  induction fuel with
  | zero =>
    intro acc l hl
    have : l = [] := List.eq_nil_of_length_eq_zero (Nat.le_zero.mp hl)
    subst this
    by_cases ha : acc.isEmpty
    · simp [splitPartsAux, ha, List.isEmpty_iff.mp ha]
    · simp [splitPartsAux, ha]
  | succ fuel ih =>
    intro acc l hl
    cases l with
    | nil =>
      by_cases ha : acc.isEmpty
      · simp [splitPartsAux, ha, List.isEmpty_iff.mp ha]
      · simp [splitPartsAux, ha]
    | cons c cs =>
      simp only [List.length_cons, Nat.succ_le_succ_iff] at hl
      by_cases hc : c = '\x7b'
      · cases hfb : findBlankEnd cs with
        | some p =>
          obtain ⟨content, rest⟩ := p
          have hrest : rest.length ≤ fuel := by
            have := findBlankEnd_length cs content rest hfb
            omega
          have hcs := findBlankEnd_eq cs content rest hfb
          rw [show splitPartsAux (fuel + 1) acc (c :: cs) =
              (if acc.isEmpty then [] else [acc.reverse]) ++
                ('\x7b' :: content ++ ['\x7d']) :: splitPartsAux fuel [] rest from by
            simp [splitPartsAux, hc, hfb]]
          rw [List.flatten_append, List.flatten_cons, ih [] rest hrest]
          by_cases ha : acc.isEmpty
          · simp [ha, List.isEmpty_iff.mp ha, hc, hcs]
          · simp [ha, hc, hcs]
        | none =>
          rw [show splitPartsAux (fuel + 1) acc (c :: cs) =
              splitPartsAux fuel (c :: acc) cs from by
            simp [splitPartsAux, hc, hfb]]
          rw [ih (c :: acc) cs hl]
          simp
      · rw [show splitPartsAux (fuel + 1) acc (c :: cs) =
            splitPartsAux fuel (c :: acc) cs from by
          simp [splitPartsAux, hc]]
        rw [ih (c :: acc) cs hl]
        simp

theorem buildCW_eq_correctWordsOf (ps : List (List Char)) :
    ∀ i : Nat, correctWordsOf (buildTokens i ps) = buildCW ps := by
  induction ps with
  | nil => intro i; rfl
  | cons p ps ih =>
    intro i
    by_cases hb : isBlankPart p
    · simp [buildTokens, buildCW, hb, correctWordsOf] at ih ⊢
      exact ih (i + 1)
    · simp [buildTokens, buildCW, hb, correctWordsOf] at ih ⊢
      exact ih i

theorem blankIndicesOf_buildTokens (ps : List (List Char)) :
    ∀ i : Nat, blankIndicesOf (buildTokens i ps) =
      List.range' i (buildCW ps).length := by
  induction ps with
  | nil => intro i; rfl
  | cons p ps ih =>
    intro i
    by_cases hb : isBlankPart p
    · simp [buildTokens, buildCW, hb, blankIndicesOf, List.range'] at ih ⊢
      exact ih (i + 1)
    · simp [buildTokens, buildCW, hb, blankIndicesOf] at ih ⊢
      exact ih i

theorem blankPart_shape (p : List Char) (hb : isBlankPart p = true) :
    p = '\x7b' :: (interior p ++ ['\x7d']) := by
  unfold isBlankPart at hb
  rw [Bool.and_eq_true, decide_eq_true_eq, decide_eq_true_eq] at hb
  obtain ⟨hh, hl⟩ := hb
  cases p with
  | nil => simp at hh
  | cons c rest =>
    simp only [List.head?_cons, Option.some.injEq] at hh
    subst hh
    cases rest with
    | nil => simp [List.getLast?] at hl
    | cons d ds =>
      have hne : d :: ds ≠ ([] : List Char) := by simp
      have hl' : (d :: ds).getLast? = some '\x7d' := by
        rw [← List.getLast?_cons_cons]
        exact hl
      have hlast : (d :: ds).getLast hne = '\x7d' := by
        rw [List.getLast?_eq_getLast (d :: ds) hne] at hl'
        exact Option.some.inj hl'
      have hsplit : (d :: ds).dropLast ++ [(d :: ds).getLast hne] = d :: ds :=
        List.dropLast_append_getLast hne
      simp only [interior, List.drop_succ_cons, List.drop_zero]
      conv_lhs => rw [← hsplit]
      rw [hlast]

theorem reconstructTokens_buildTokens (ps : List (List Char)) :
    ∀ i : Nat,
      (∀ p ∈ ps, isBlankPart p = true → jsTrim (interior p) = interior p) →
      reconstructTokens (buildTokens i ps) = ps.flatten := by
  induction ps with
  | nil => intro i _; rfl
  | cons p ps ih =>
    intro i htrim
    by_cases hb : isBlankPart p
    · have hshape := blankPart_shape p hb
      have htr := htrim p (by simp) hb
      simp only [buildTokens, if_pos hb, reconstructTokens, List.flatten_cons]
      rw [ih (i + 1) (fun q hq hbq => htrim q (by simp [hq]) hbq)]
      rw [htr]
      conv_rhs => rw [hshape]
      simp
    · simp only [buildTokens, if_neg hb, reconstructTokens, List.flatten_cons]
      rw [ih i (fun q hq hbq => htrim q (by simp [hq]) hbq)]

theorem getLast?_mem {p : List Char} {c : Char} (h : p.getLast? = some c) :
    c ∈ p := by
  cases p with
  | nil => simp [List.getLast?] at h
  | cons d ds =>
    have hne : d :: ds ≠ ([] : List Char) := by simp
    rw [List.getLast?_eq_getLast (d :: ds) hne] at h
    have := Option.some.inj h
    rw [← this]
    exact List.getLast_mem hne

theorem contains_false_noClose (l : List Char) (h : l.contains '\x7d' = false) :
    noCloseAfterOpen l = true := by
  induction l with
  | nil => rfl
  | cons c cs ih =>
    simp only [List.contains_cons, Bool.or_eq_false_iff] at h
    by_cases hc : c = '\x7b'
    · simp only [noCloseAfterOpen, if_pos hc, h.2]
      rfl
    · simp only [noCloseAfterOpen, if_neg hc]
      exact ih h.2

theorem splitPartsAux_noClose (fuel : Nat) :
    ∀ (acc l : List Char), l.length ≤ fuel → noCloseAfterOpen l = true →
      splitPartsAux fuel acc l =
        if (acc.reverse ++ l).isEmpty then [] else [acc.reverse ++ l] := by
  induction fuel with
  | zero =>
    intro acc l hl _
    have : l = [] := List.eq_nil_of_length_eq_zero (Nat.le_zero.mp hl)
    subst this
    by_cases ha : acc.isEmpty
    · simp [splitPartsAux, ha, List.isEmpty_iff.mp ha]
    · simp only [splitPartsAux, if_neg ha, List.append_nil]
      rw [if_neg (by
        simp only [List.isEmpty_iff] at ha ⊢
        exact fun h => ha (by simpa using congrArg List.reverse h))]
  | succ fuel ih =>
    intro acc l hl hnc
    cases l with
    | nil =>
      by_cases ha : acc.isEmpty
      · simp [splitPartsAux, ha, List.isEmpty_iff.mp ha]
      · simp only [splitPartsAux, if_neg ha, List.append_nil]
        rw [if_neg (by
          simp only [List.isEmpty_iff] at ha ⊢
          exact fun h => ha (by simpa using congrArg List.reverse h))]
    | cons c cs =>
      simp only [List.length_cons, Nat.succ_le_succ_iff] at hl
      by_cases hc : c = '\x7b'
      · have hcont : cs.contains '\x7d' = false := by
          have := hnc
          simp only [noCloseAfterOpen, if_pos hc, Bool.not_eq_true'] at this
          exact this
        cases hfb : findBlankEnd cs with
        | some q =>
          obtain ⟨content, rest⟩ := q
          exact absurd hcont (by
            have hcs := findBlankEnd_eq cs content rest hfb
            have hmem : '\x7d' ∈ cs := by rw [hcs]; simp
            rw [List.contains_eq_any_beq, Bool.not_eq_false, List.any_eq_true]
            exact ⟨'\x7d', hmem, by simp⟩)
        | none =>
          have hnc' : noCloseAfterOpen cs = true := contains_false_noClose cs hcont
          rw [show splitPartsAux (fuel + 1) acc (c :: cs) =
              splitPartsAux fuel (c :: acc) cs by
            simp [splitPartsAux, hc, hfb]]
          rw [ih (c :: acc) cs hl hnc']
          simp
      · have hnc' : noCloseAfterOpen cs = true := by
          simpa [noCloseAfterOpen, hc] using hnc
        rw [show splitPartsAux (fuel + 1) acc (c :: cs) =
            splitPartsAux fuel (c :: acc) cs by
          simp [splitPartsAux, hc]]
        rw [ih (c :: acc) cs hl hnc']
        simp

theorem noClose_not_blankPart (l : List Char) (hnc : noCloseAfterOpen l = true) :
    isBlankPart l = false := by
  cases l with
  | nil => rfl
  | cons c cs =>
    by_cases hc : c = '\x7b'
    · have hcont : cs.contains '\x7d' = false := by
        simpa [noCloseAfterOpen, hc, Bool.not_eq_true'] using hnc
      unfold isBlankPart
      rw [Bool.and_eq_false_iff]
      right
      rw [decide_eq_false_iff_not]
      intro hl
      have hmem := getLast?_mem hl
      rcases List.mem_cons.mp hmem with h | h
      · exact absurd (hc ▸ h.symm) (by decide)
      · rw [List.contains_eq_any_beq] at hcont
        have : cs.any (fun x => '\x7d' == x) = true := by
          rw [List.any_eq_true]
          exact ⟨'\x7d', h, by simp⟩
        rw [this] at hcont
        exact absurd hcont (by decide)
    · unfold isBlankPart
      rw [Bool.and_eq_false_iff]
      left
      simp [hc]

/-! ## Quiz and reducer lemmas -/

theorem chain'_fst_lt_head {x : Nat × String} {xs : List (Nat × String)}
    (h : List.Chain' (fun p q => p.1 < q.1) (x :: xs)) :
    ∀ q ∈ xs, x.1 < q.1 := by
  induction xs generalizing x with
  | nil => intro q hq; simp at hq
  | cons y ys ih =>
    intro q hq
    rw [List.chain'_cons] at h
    rcases List.mem_cons.mp hq with hq | hq
    · exact hq ▸ h.1
    · exact Nat.lt_trans h.1 (ih h.2 q hq)

theorem find?_first_is_min {bps : List (Nat × String)}
    {p : Nat × String → Bool} {bp : Nat × String}
    (hc : List.Chain' (fun a b => a.1 < b.1) bps)
    (h : bps.find? p = some bp) :
    ∀ q ∈ bps, p q = true → bp.1 ≤ q.1 := by
  induction bps with
  | nil => simp at h
  | cons x xs ih =>
    intro q hq hpq
    by_cases hx : p x = true
    · rw [List.find?_cons_of_pos xs hx] at h
      have hbp : bp = x := (Option.some.inj h).symm
      subst hbp
      rcases List.mem_cons.mp hq with hq | hq
      · subst hq; exact Nat.le_refl _
      · exact Nat.le_of_lt (chain'_fst_lt_head hc q hq)
    · rw [List.find?_cons_of_neg xs hx] at h
      rcases List.mem_cons.mp hq with hq | hq
      · subst hq; exact absurd hpq hx
      · have hc' : List.Chain' (fun a b => a.1 < b.1) xs := by
          cases xs with
          | nil => exact List.chain'_nil
          | cons y ys => exact (List.chain'_cons.mp hc).2
        exact ih hc' h q hq hpq

theorem chain'_le_of_le {a b : Nat} {l : List Nat} (hab : a ≤ b)
    (h : List.Chain' (fun x y => x ≤ y) (b :: l)) :
    List.Chain' (fun x y => x ≤ y) (a :: l) := by
  cases l with
  | nil => exact List.chain'_singleton a
  | cons c l =>
    rw [List.chain'_cons] at h ⊢
    exact ⟨Nat.le_trans hab h.1, h.2⟩

theorem applyActions_updatedAt_mono (t0 : Nat) (acts : List (Nat × Action)) :
    ∀ s : LessonState, (∀ p ∈ acts, p.2 ≠ Action.resetLesson) →
      List.Chain' (fun x y => x ≤ y) (s.updatedAt :: acts.map Prod.fst) →
      s.updatedAt ≤ (applyActions t0 s acts).updatedAt := by
  induction acts with
  | nil => intro s _ _; exact Nat.le_refl _
  | cons pa rest ih =>
    obtain ⟨now, a⟩ := pa
    intro s hnr hch
    simp only [List.map_cons] at hch
    rw [List.chain'_cons] at hch
    obtain ⟨h1, h2⟩ := hch
    have hnr' : ∀ p ∈ rest, p.2 ≠ Action.resetLesson := fun p hp =>
      hnr p (by simp [hp])
    show s.updatedAt ≤ (applyActions t0 (lessonReducer t0 now s a) rest).updatedAt
    cases a with
    | setView v =>
      exact ih (lessonReducer t0 now s (.setView v)) hnr' (chain'_le_of_le h1 h2)
    | resetLesson => exact absurd rfl (hnr (now, .resetLesson) (by simp))
    | setField f =>
      exact Nat.le_trans h1 (ih (lessonReducer t0 now s (.setField f)) hnr' h2)
    | addActivity x =>
      exact Nat.le_trans h1 (ih (lessonReducer t0 now s (.addActivity x)) hnr' h2)
    | updateActivity i x =>
      exact Nat.le_trans h1
        (ih (lessonReducer t0 now s (.updateActivity i x)) hnr' h2)
    | deleteActivity i =>
      exact Nat.le_trans h1
        (ih (lessonReducer t0 now s (.deleteActivity i)) hnr' h2)
    | reorderActivities x =>
      exact Nat.le_trans h1
        (ih (lessonReducer t0 now s (.reorderActivities x)) hnr' h2)
    | loadLesson l =>
      exact Nat.le_trans h1 (ih (lessonReducer t0 now s (.loadLesson l)) hnr' h2)

/-- Does the reducer stamp `updatedAt = now` for this action?  True for the
five mutating actions and `LOAD_LESSON`; false for the pure view change and
for `RESET_LESSON` (which restores the module-load timestamp instead). -/
def stampsNow : Action → Bool
  | .setView _ => false
  | .resetLesson => false
  | _ => true

/-! ## Concrete documents and states used by the claims -/

/-- The fill-in-blanks activity of the learner demo data
(`DUMMY_LESSON_DATA`, activity id 2): its distractor words live in a
`wordPool` field. -/
def dummyFillInBlanks : Activity where
  id := 2
  type := .fillInBlanks
  question :=
    { text := "Smeety Alex, o \x7bnty\x7d?"
      translation := "How about you? (Addressing a female)"
      audioUrl := "/audio/q_blanks.mp3" }
  wordPool := some ["nta", "nty", "Labass", "Smeetk"]

/-- A fill-in-blanks activity exactly as the authoring dashboard produces
it: `handleTypeChange` resets `initialActivityData` to the new type keeping
id and title, the sentence template is typed into `question.text`, and the
distractor words into `wordBlocks`.  The authoring schema has no `wordPool`
field. -/
def authoredFillInBlanks : Activity :=
  { initialActivityData 0 with
    type := .fillInBlanks
    title := "Greetings"
    question := { id := 0, text := "Smeety Alex, o \x7bnty\x7d?" }
    wordBlocks := some ["nta", "Labass"] }

/-- A fill-in-blanks draft whose question text has an opening brace but no
closing brace, hence no brace-delimited blank. -/
def braceOnlyActivity : Activity where
  type := .fillInBlanks
  title := "Greetings"
  question := { text := "x\x7b" }

/-- A fill-in-blanks draft with a valid title and a brace-free question. -/
def noBraceActivity : Activity where
  type := .fillInBlanks
  title := "Greetings"
  question := { text := "Hello" }

/-- A multiple-choice draft with one non-blank option and no correct one. -/
def soloOptionActivity : Activity where
  type := .multipleChoice
  title := "Pick one"
  question := { text := "Q?" }
  options := [{ text := "A", isCorrect := false }]

/-- A multiple-choice activity with two options sharing the text "A"; the
first is not correct, the second is. -/
def mcDupActivity : Activity where
  type := .multipleChoice
  title := "Pick one"
  question := { text := "Q?" }
  options := [{ text := "A", isCorrect := false },
              { text := "A", isCorrect := true }]

/-- An unanswered fill-in-blanks step whose pool repeats the word "nta". -/
def dupPoolState : QuizState :=
  { initialQuizState with availableWords := ["nta", "nta"] }

/-- An unanswered fill-in-blanks step with words "nta" and "nty" on offer. -/
def tapWitnessState : QuizState :=
  { initialQuizState with availableWords := ["nta", "nty"] }

/-- A step with option text "A" tentatively selected. -/
def selectedAState : QuizState :=
  { initialQuizState with selectedAnswer := some "A" }

/-! ## Claims -/

/-- Claim C5: the tokenizer turns each balanced brace group into a blank
token whose zero-based index follows left-to-right appearance order and
whose correct word is the whitespace-trimmed group content, turns every
other non-empty fragment into a text token, and lists the blanks' correct
words in `correctWords` in the same order; in particular
`tokenize("Smeety Alex, o \x7bnty\x7d?")` yields the template
`[text "Smeety Alex, o ", blank 0 "nty", text "?"]` with
`correctWords = ["nty"]`. -/
theorem parseFillInBlanks_spec :
    parseFillInBlanks "Smeety Alex, o \x7bnty\x7d?" =
      ([Token.text "Smeety Alex, o ", Token.blank 0 "nty", Token.text "?"],
        ["nty"]) ∧
    (∀ t : String,
      (parseFillInBlanks t).2 = correctWordsOf (parseFillInBlanks t).1) ∧
    (∀ t : String,
      blankIndicesOf (parseFillInBlanks t).1 =
        List.range (parseFillInBlanks t).2.length) := by
  refine ⟨by decide, fun t => ?_, fun t => ?_⟩
  · unfold parseFillInBlanks
    by_cases ht : t = ""
    · simp [ht, correctWordsOf]
    · simp only [if_neg ht]
      exact (buildCW_eq_correctWordsOf (splitParts t.data) 0).symm
  · unfold parseFillInBlanks
    by_cases ht : t = ""
    · simp [ht, blankIndicesOf]
    · simp only [if_neg ht]
      rw [blankIndicesOf_buildTokens (splitParts t.data) 0, List.range_eq_range']

/-- Claim C6, counterexample: for the template "\x7b(LF)\x7da\x7d" the
tokenizer produces the single blank token with correct word "\x7da" (the
line feed blocks the regular-expression match and trimming then exposes a
leading closing brace), and re-tokenizing its literal reconstruction
"\x7b\x7da\x7d" yields a different token sequence, so re-tokenizing the
reconstruction does not always reproduce the original template. -/
theorem retokenize_counterexample :
    parseFillInBlanks
        ⟨reconstructTokens (parseFillInBlanks "\x7b\n\x7da\x7d").1⟩ ≠
      parseFillInBlanks "\x7b\n\x7da\x7d" := by decide

/-- Claim C6, amended: whenever every brace-group part of the template has
whitespace-trimmed content equal to its content (so trimming changes
nothing), the literal reconstruction equals the original template string and
therefore re-tokenizing it reproduces the original token sequence exactly. -/
theorem retokenize_reconstruction (t : String)
    (h : ∀ p ∈ splitParts t.data, isBlankPart p = true →
      jsTrim (interior p) = interior p) :
    (⟨reconstructTokens (parseFillInBlanks t).1⟩ : String) = t ∧
    parseFillInBlanks ⟨reconstructTokens (parseFillInBlanks t).1⟩ =
      parseFillInBlanks t := by
  have key : (⟨reconstructTokens (parseFillInBlanks t).1⟩ : String) = t := by
    by_cases ht : t = ""
    · subst ht; rfl
    · unfold parseFillInBlanks
      simp only [if_neg ht]
      rw [reconstructTokens_buildTokens (splitParts t.data) 0 h]
      show (⟨(splitPartsAux t.data.length [] t.data).flatten⟩ : String) = t
      rw [splitPartsAux_flatten t.data.length [] t.data (Nat.le_refl _)]
      obtain ⟨l⟩ := t
      rfl
  exact ⟨key, by rw [key]⟩

theorem retokenize_reconstruction_witness :
    (⟨reconstructTokens
        (parseFillInBlanks "Smeety Alex, o \x7bnty\x7d?").1⟩ : String) =
      "Smeety Alex, o \x7bnty\x7d?" ∧
    parseFillInBlanks
        ⟨reconstructTokens (parseFillInBlanks "Smeety Alex, o \x7bnty\x7d?").1⟩ =
      parseFillInBlanks "Smeety Alex, o \x7bnty\x7d?" :=
  retokenize_reconstruction "Smeety Alex, o \x7bnty\x7d?" (by decide)

/-- Claim C7: the tokenizer returns normally on every input and loses no
characters (the parts always concatenate back to the input), and when no
closing brace follows any opening brace the whole template becomes one
literal text token with no blank. -/
theorem tokenizer_total_unmatched :
    (∀ t : String, (splitParts t.data).flatten = t.data) ∧
    (∀ t : String, t ≠ "" → noCloseAfterOpen t.data = true →
      parseFillInBlanks t = ([Token.text t], [])) := by
  constructor
  · intro t
    show (splitPartsAux t.data.length [] t.data).flatten = t.data
    rw [splitPartsAux_flatten t.data.length [] t.data (Nat.le_refl _)]
    rfl
  · intro t ht hnc
    have hdata : t.data ≠ [] := by
      obtain ⟨l⟩ := t
      intro hl
      exact ht (by rw [show l = [] from hl])
    have hparts : splitParts t.data = [t.data] := by
      show splitPartsAux t.data.length [] t.data = [t.data]
      rw [splitPartsAux_noClose t.data.length [] t.data (Nat.le_refl _) hnc]
      rw [if_neg (by simp [List.isEmpty_iff, hdata])]
      rfl
    have hnb : isBlankPart t.data = false := noClose_not_blankPart t.data hnc
    unfold parseFillInBlanks
    rw [if_neg ht, hparts]
    rw [show buildTokens 0 [t.data] = [Token.text ⟨t.data⟩] from by
        simp [buildTokens, hnb],
      show buildCW [t.data] = [] from by simp [buildCW, hnb]]

theorem tokenizer_total_unmatched_witness :
    parseFillInBlanks "a\x7bbc" = ([Token.text "a\x7bbc"], []) :=
  tokenizer_total_unmatched.2 "a\x7bbc" (by decide) (by decide)

/-- Claim C1: the authoring dashboard stores distractor words in
`wordBlocks` and produces a validator-clean document without any `wordPool`
field, but the learner-side word-block initialization reads only
`currentContent.wordPool` — spreading the absent field fails (a `TypeError`
at runtime, `none` here) instead of shuffling `wordBlocks`; on the demo
document it initializes `availableWords` from `wordPool`, never from
`wordBlocks`. -/
theorem initWordBlocks_ignores_wordBlocks :
    validateActivity authoredFillInBlanks = [] ∧
    authoredFillInBlanks.wordBlocks = some ["nta", "Labass"] ∧
    authoredFillInBlanks.wordPool = none ∧
    (∀ shuffle : List String → List String,
      initWordBlocks shuffle authoredFillInBlanks = none) ∧
    initWordBlocks (fun l => l) dummyFillInBlanks =
      some (["nta", "nty", "Labass", "Smeetk"], []) :=
  ⟨by decide, by decide, rfl, fun _ => rfl, rfl⟩

/-- Claim C2, counterexample: from the initial state (`step = 0`,
`isAnswered = false`, before any `check()`), `continue()` is not refused:
it advances the step. -/
theorem handleContinue_before_check_advances :
    initialQuizState.isAnswered = false ∧
    (handleContinue 5 initialQuizState).step = initialQuizState.step + 1 := by
  decide

/-- Claim C2, amended: `continue()` advances the step by exactly one and
resets `isAnswered`, `isCorrect`, `selectedAnswer` and `blanksState`
whenever `step < totalSteps`, regardless of `isAnswered` (the before-check
gate exists only in the UI, which renders the Continue button only once
answered); at `step = totalSteps` and beyond it is silently a no-op, with no
exception, enforced by the handler itself.  For a 4-activity lesson
(`totalSteps = 5`) five continues land on the terminal state and a sixth
changes nothing. -/
theorem handleContinue_amended :
    (∀ (totalSteps : Nat) (s : QuizState), s.step < totalSteps →
      handleContinue totalSteps s =
        { s with step := s.step + 1, isAnswered := false, isCorrect := false,
                 selectedAnswer := none, blanksState := [],
                 matchingState := [] }) ∧
    (∀ (totalSteps : Nat) (s : QuizState), totalSteps ≤ s.step →
      handleContinue totalSteps s = s) ∧
    ((handleContinue 5)^[5] initialQuizState).step = 5 ∧
    (handleContinue 5)^[6] initialQuizState =
      (handleContinue 5)^[5] initialQuizState := by
  refine ⟨fun T s h => ?_, fun T s h => ?_, by decide, by decide⟩
  · unfold handleContinue
    rw [if_pos h]
  · unfold handleContinue
    rw [if_neg (Nat.not_lt.mpr h)]

theorem handleContinue_amended_witness :
    handleContinue 5 initialQuizState =
      { initialQuizState with
          step := initialQuizState.step + 1, isAnswered := false,
          isCorrect := false, selectedAnswer := none, blanksState := [],
          matchingState := [] } ∧
    handleContinue 0 initialQuizState = initialQuizState :=
  ⟨handleContinue_amended.1 5 initialQuizState (by decide),
   handleContinue_amended.2.1 0 initialQuizState (by decide)⟩

/-- Claim C3, counterexample: the validator only tests
`question.text.includes("\x7b")`, so the template "x\x7b" — which contains
no brace-delimited blank at all (its token sequence is a single text token
and has no blank token) — passes validation with no error. -/
theorem validateActivity_unbalanced_counterexample :
    validateActivity braceOnlyActivity = [] ∧
    braceOnlyActivity.question.text = "x\x7b" ∧
    (parseFillInBlanks "x\x7b").1 = [Token.text "x\x7b"] ∧
    blankTokens (parseFillInBlanks "x\x7b").1 = [] := by decide

/-- Claim C3, amended: for a fill-in-blanks activity the blanks-required
error is returned exactly when `question.text` does not contain the
character "\x7b" (not: a complete brace-delimited blank); and given a
non-blank title and non-blank question text without "\x7b", it is the only
error returned. -/
theorem validateActivity_fillInBlanks_amended (a : Activity)
    (h : a.type = ActivityType.fillInBlanks) :
    (blanksRequiredError ∈ validateActivity a ↔
      a.question.text.data.contains '\x7b' = false) ∧
    (jsTrimStr a.title ≠ "" → jsTrimStr a.question.text ≠ "" →
      a.question.text.data.contains '\x7b' = false →
      validateActivity a = [blanksRequiredError]) := by
  have d1 : blanksRequiredError ≠ titleRequiredError := by decide
  have d2 : blanksRequiredError ≠ questionRequiredError := by decide
  by_cases h1 : jsTrimStr a.title = "" <;>
    by_cases h2 : jsTrimStr a.question.text = "" <;>
      by_cases hc : a.question.text.data.contains '\x7b' = true <;>
        simp [validateActivity, h, h1, h2, hc, d1, d2]

theorem validateActivity_fillInBlanks_amended_witness :
    validateActivity noBraceActivity = [blanksRequiredError] :=
  (validateActivity_fillInBlanks_amended noBraceActivity rfl).2
    (by decide) (by decide) (by decide)

/-- Claim C4: a multiple-choice activity with non-blank title and question
text, exactly one option with non-blank text, and no option marked correct
yields exactly the two errors "At least 2 options are required" and
"One option must be marked as correct", in that order, with no
short-circuiting. -/
theorem validateActivity_mc_exact (a : Activity)
    (h : a.type = ActivityType.multipleChoice)
    (ht : jsTrimStr a.title ≠ "")
    (hq : jsTrimStr a.question.text ≠ "")
    (hone : (a.options.filter fun o => jsTrimStr o.text ≠ "").length = 1)
    (hnc : ∀ o ∈ a.options, o.isCorrect = false) :
    validateActivity a = [optionsCountError, correctOptionError] := by
  have hany : (a.options.any fun o => o.isCorrect) = false := by
    rw [← Bool.not_eq_true, List.any_eq_true]
    rintro ⟨x, hx, hcor⟩
    rw [hnc x hx] at hcor
    exact Bool.false_ne_true hcor
  have hone2 : (List.filter (fun o => !decide (jsTrimStr o.text = ""))
      a.options).length = 1 := by
    simpa using hone
  unfold validateActivity
  rw [h]
  simp [ht, hq, hone2, hany]

theorem validateActivity_mc_exact_witness :
    validateActivity soloOptionActivity =
      [optionsCountError, correctOptionError] :=
  validateActivity_mc_exact soloOptionActivity rfl (by decide) (by decide)
    (by decide) (by decide)

/-- Claim C9, counterexample: when the pool repeats "nta", one tap removes
every copy (`filter(w => w !== word)`), so the duplicate does not remain
available; moreover a second direct tap of the same word fills a second
blank slot, because the handler never checks that the word is still in the
pool. -/
theorem tapWord_duplicates_counterexample :
    blankTokens (parseFillInBlanks "\x7bx\x7d \x7by\x7d").1 =
      [(0, "x"), (1, "y")] ∧
    dupPoolState.availableWords = ["nta", "nta"] ∧
    (handleWordBlockTap [(0, "x"), (1, "y")] "nta" dupPoolState).availableWords
      = [] ∧
    (handleWordBlockTap [(0, "x"), (1, "y")] "nta"
        (handleWordBlockTap [(0, "x"), (1, "y")] "nta"
          dupPoolState)).blanksState = [(1, "nta"), (0, "nta")] := by decide

/-- Claim C9, amended: while unanswered, `tapWord(word)` assigns `word` to
the first unfilled blank in template order — the lowest-indexed unfilled
blank whenever the blank indices are strictly increasing, as the tokenizer
guarantees — and removes every occurrence of `word` from `availableWords`,
so that no copy of a tapped word remains available even when the pool
repeats it; the tap handler itself does not check availability. -/
theorem handleWordBlockTap_amended (bps : List (Nat × String)) (word : String)
    (s : QuizState) (h : s.isAnswered = false) (bp : Nat × String)
    (hf : bps.find? (fun e => (lookupBlank s.blanksState e.1).isNone) = some bp) :
    (handleWordBlockTap bps word s).blanksState =
      (bp.1, word) :: s.blanksState ∧
    (handleWordBlockTap bps word s).availableWords =
      s.availableWords.filter (fun w => w ≠ word) ∧
    word ∉ (handleWordBlockTap bps word s).availableWords ∧
    (List.Chain' (fun p q => p.1 < q.1) bps →
      ∀ q ∈ bps, (lookupBlank s.blanksState q.1).isNone = true →
        bp.1 ≤ q.1) := by
  have htap : handleWordBlockTap bps word s =
      { s with blanksState := (bp.1, word) :: s.blanksState,
               availableWords := s.availableWords.filter fun w => w ≠ word } := by
    unfold handleWordBlockTap
    rw [if_neg (by simp [h]), hf]
  refine ⟨by rw [htap], by rw [htap], ?_,
    fun hc q hq hun => find?_first_is_min hc hf q hq hun⟩
  rw [htap]
  intro hmem
  obtain ⟨-, hw⟩ := List.mem_filter.mp hmem
  simp at hw

theorem handleWordBlockTap_amended_witness :
    (handleWordBlockTap [(0, "x"), (1, "y")] "nty" tapWitnessState).blanksState
      = (0, "nty") :: tapWitnessState.blanksState ∧
    (handleWordBlockTap [(0, "x"), (1, "y")] "nty"
        tapWitnessState).availableWords =
      tapWitnessState.availableWords.filter (fun w => w ≠ "nty") ∧
    "nty" ∉ (handleWordBlockTap [(0, "x"), (1, "y")] "nty"
        tapWitnessState).availableWords ∧
    (List.Chain' (fun p q => p.1 < q.1) [(0, "x"), (1, "y")] →
      ∀ q ∈ [(0, "x"), (1, "y")],
        (lookupBlank tapWitnessState.blanksState q.1).isNone = true →
          (0 : Nat) ≤ q.1) :=
  handleWordBlockTap_amended [(0, "x"), (1, "y")] "nty" tapWitnessState
    (by decide) (0, "x") (by decide)

/-- Claim C10: on a non-intro multiple-choice step, `check()` looks up the
first option whose text equals the selected answer; with no selection
(`selectedAnswer` still null) it still completes, marking the step answered
and incorrect; and when two options share a text, the first occurrence's
`isCorrect` flag decides. -/
theorem checkAnswer_multipleChoice (step : Nat) (a : Activity)
    (bps : List (Nat × String)) (s : QuizState)
    (hs : step ≠ 0) (h : a.type = ActivityType.multipleChoice) :
    (s.selectedAnswer = none →
      checkAnswer step a bps s =
        { s with isAnswered := true, isCorrect := false }) ∧
    (∀ (ans : String) (l1 l2 : List OptionElem) (o : OptionElem),
      s.selectedAnswer = some ans → a.options = l1 ++ o :: l2 →
      o.text = ans → (∀ o2 ∈ l1, o2.text ≠ ans) →
      checkAnswer step a bps s =
        { s with isAnswered := true, isCorrect := o.isCorrect }) := by
  constructor
  · intro hsel
    unfold checkAnswer
    rw [if_neg hs, h]
    have hfind : (a.options.find? fun o => some o.text = s.selectedAnswer)
        = none := by
      rw [List.find?_eq_none]
      intro x hx
      simp [hsel]
    simp [hfind]
  · intro ans l1 l2 o hsel hopt hto hne
    unfold checkAnswer
    rw [if_neg hs, h, hopt]
    have hfind1 : (l1.find? fun o2 => some o2.text = s.selectedAnswer)
        = none := by
      rw [List.find?_eq_none]
      intro x hx
      simp only [hsel, Option.some.injEq, decide_eq_true_eq]
      exact hne x hx
    have hfind2 : ((o :: l2).find? fun o2 => some o2.text = s.selectedAnswer)
        = some o :=
      List.find?_cons_of_pos l2 (by simp [hsel, hto])
    rw [List.find?_append, hfind1, hfind2]
    simp

theorem checkAnswer_multipleChoice_witness :
    checkAnswer 1 mcDupActivity [] initialQuizState =
      { initialQuizState with isAnswered := true, isCorrect := false } ∧
    checkAnswer 1 mcDupActivity [] selectedAState =
      { selectedAState with isAnswered := true, isCorrect := false } :=
  ⟨(checkAnswer_multipleChoice 1 mcDupActivity [] initialQuizState
      (by decide) rfl).1 rfl,
   (checkAnswer_multipleChoice 1 mcDupActivity [] selectedAState
      (by decide) rfl).2 "A" [] [{ text := "A", isCorrect := true }]
      { text := "A", isCorrect := false } rfl rfl rfl (by decide)⟩

/-- Claim C8, counterexample: `RESET_LESSON` is not a pure view change, yet
dispatched at time 6 after a `SET_FIELD` at time 5 it restores the
module-load `updatedAt = 0`: `updatedAt` drops from 5 to 0, so it is neither
stamped with the current time on every non-view transition nor monotone
across arbitrary action sequences. -/
theorem lessonReducer_reset_counterexample :
    (lessonReducer 0 5 (initialLessonState 0)
        (Action.setField (FieldSet.title "Lesson 1"))).updatedAt = 5 ∧
    (lessonReducer 0 6
        (lessonReducer 0 5 (initialLessonState 0)
          (Action.setField (FieldSet.title "Lesson 1")))
        Action.resetLesson).updatedAt = 0 := by decide

/-- Claim C8, amended: `SET_FIELD`, `ADD_ACTIVITY`, `UPDATE_ACTIVITY`,
`DELETE_ACTIVITY`, `REORDER_ACTIVITIES` (and `LOAD_LESSON`) stamp
`updatedAt` with the dispatch-time clock; `SET_VIEW` changes only the view;
`RESET_LESSON` restores the module-load timestamp; and along any dispatched
sequence that contains no `RESET_LESSON` and whose clock readings are
non-decreasing from the current `updatedAt`, `updatedAt` is monotonically
non-decreasing. -/
theorem lessonReducer_updatedAt_amended :
    (∀ (t0 now : Nat) (s : LessonState) (a : Action), stampsNow a = true →
      (lessonReducer t0 now s a).updatedAt = now) ∧
    (∀ (t0 now : Nat) (s : LessonState) (v : View),
      lessonReducer t0 now s (Action.setView v) = { s with currentView := v }) ∧
    (∀ (t0 now : Nat) (s : LessonState),
      (lessonReducer t0 now s Action.resetLesson).updatedAt = t0) ∧
    (∀ (t0 : Nat) (s : LessonState) (acts : List (Nat × Action)),
      (∀ p ∈ acts, p.2 ≠ Action.resetLesson) →
      List.Chain' (fun x y => x ≤ y) (s.updatedAt :: acts.map Prod.fst) →
      s.updatedAt ≤ (applyActions t0 s acts).updatedAt) := by
  refine ⟨fun t0 now s a ha => ?_, fun t0 now s v => rfl, fun t0 now s => rfl,
    fun t0 s acts => applyActions_updatedAt_mono t0 acts s⟩
  cases a with
  | setView v => simp [stampsNow] at ha
  | resetLesson => simp [stampsNow] at ha
  | setField f => rfl
  | addActivity x => rfl
  | updateActivity i x => rfl
  | deleteActivity i => rfl
  | reorderActivities x => rfl
  | loadLesson l => rfl

theorem lessonReducer_updatedAt_amended_witness :
    (lessonReducer 0 9 (initialLessonState 0)
        (Action.setField (FieldSet.title "Basics"))).updatedAt = 9 ∧
    (initialLessonState 3).updatedAt ≤
      (applyActions 0 (initialLessonState 3)
        [(5, Action.setField (FieldSet.title "Basics")),
         (7, Action.addActivity {})]).updatedAt :=
  ⟨lessonReducer_updatedAt_amended.1 0 9 (initialLessonState 0)
      (Action.setField (FieldSet.title "Basics")) (by decide),
   lessonReducer_updatedAt_amended.2.2.2 0 (initialLessonState 3)
      [(5, Action.setField (FieldSet.title "Basics")),
       (7, Action.addActivity {})] (by decide)
      (by
        show List.Chain' (fun x y => x ≤ y) (3 :: 5 :: 7 :: [])
        exact List.chain'_cons.mpr ⟨by decide,
          List.chain'_cons.mpr ⟨by decide, List.chain'_singleton 7⟩⟩)⟩

end Darija
